import Mathlib

/-!
Verification of the ordered-collection logic of the comic-sharing boilerplate:
drag-and-drop reordering with persisted positions, the bookmark-folder cap
trigger, slug uniqueness, the multi-step upload wizard, and the persistence
loops.  Each definition is a shallow embedding of the corresponding function
in `src/app/dashboard/bookmarks/page.tsx` or of the SQL in
`extended-schema.md`; theorems settle the spec's claims about them.
-/

namespace Manus

/-- Model of `array.splice(i, 1)` as used by the drag handlers: remove the
element at index `i`; an out-of-range index removes nothing. -/
def spliceRemove {α : Type} : List α → Nat → List α
  | [], _ => []
  | _ :: t, 0 => t
  | h :: t, n + 1 => h :: spliceRemove t n

/-- Model of `array.splice(j, 0, a)`: insert `a` at index `j`; an index past
the end appends at the end. -/
def spliceInsert {α : Type} : List α → Nat → α → List α
  | l, 0, a => a :: l
  | [], _ + 1, a => [a]
  | h :: t, n + 1, a => h :: spliceInsert t n a

/-- The core of `handleDragEnd` (both the folder list and the page grid):
read the dragged element at `i`, remove it, and re-insert it at `j`.  The
handlers only fire with indices of rendered items, so `i` is in range; on an
out-of-range `i` the model leaves the list unchanged. -/
def reorderMove {α : Type} (l : List α) (i j : Nat) : List α :=
  match l[i]? with
  | none => l
  | some a => spliceInsert (spliceRemove l i) j a

/-- `array.map((item, index) => position := index + b)`: pair every element
with its index offset by the base `b` (`b = 0` for folder `display_order`,
`b = 1` for `page_number`). -/
def assignPositions {α : Type} : Nat → List α → List (α × Nat)
  | _, [] => []
  | b, a :: l => (a, b) :: assignPositions (b + 1) l

theorem spliceInsert_length {α : Type} (l : List α) (j : Nat) (a : α) :
    (spliceInsert l j a).length = l.length + 1 := by
  induction l generalizing j with
  | nil => cases j <;> simp [spliceInsert]
  | cons h t ih =>
    cases j with
    | zero => simp [spliceInsert]
    | succ n => simp [spliceInsert, ih]

theorem spliceRemove_length {α : Type} (l : List α) (i : Nat) (hi : i < l.length) :
    (spliceRemove l i).length = l.length - 1 := by
  induction l generalizing i with
  | nil => simp at hi
  | cons h t ih =>
    cases i with
    | zero => simp [spliceRemove]
    | succ n =>
      simp only [List.length_cons, Nat.succ_lt_succ_iff] at hi
      simp [spliceRemove, ih n hi]
      omega

theorem spliceInsert_getElem?_self {α : Type} (l : List α) (j : Nat) (a : α)
    (hj : j ≤ l.length) : (spliceInsert l j a)[j]? = some a := by
  induction l generalizing j with
  | nil =>
    simp only [List.length_nil, Nat.le_zero] at hj
    subst hj
    simp [spliceInsert]
  | cons h t ih =>
    cases j with
    | zero => simp [spliceInsert]
    | succ n =>
      simp only [List.length_cons, Nat.succ_le_succ_iff] at hj
      simpa [spliceInsert] using ih n hj

theorem spliceRemove_spliceInsert {α : Type} (l : List α) (j : Nat) (a : α)
    (hj : j ≤ l.length) : spliceRemove (spliceInsert l j a) j = l := by
  induction l generalizing j with
  | nil =>
    simp only [List.length_nil, Nat.le_zero] at hj
    subst hj
    simp [spliceInsert, spliceRemove]
  | cons h t ih =>
    cases j with
    | zero => simp [spliceInsert, spliceRemove]
    | succ n =>
      simp only [List.length_cons, Nat.succ_le_succ_iff] at hj
      simp [spliceInsert, spliceRemove, ih n hj]

theorem spliceRemove_map {α β : Type} (f : α → β) (l : List α) (i : Nat) :
    (spliceRemove l i).map f = spliceRemove (l.map f) i := by
  induction l generalizing i with
  | nil => simp [spliceRemove]
  | cons h t ih =>
    cases i with
    | zero => simp [spliceRemove]
    | succ n => simp [spliceRemove, ih]

theorem spliceInsert_map {α β : Type} (f : α → β) (l : List α) (j : Nat) (a : α) :
    (spliceInsert l j a).map f = spliceInsert (l.map f) j (f a) := by
  induction l generalizing j with
  | nil => cases j <;> simp [spliceInsert]
  | cons h t ih =>
    cases j with
    | zero => simp [spliceInsert]
    | succ n => simp [spliceInsert, ih]

theorem reorderMove_length {α : Type} (l : List α) (i j : Nat) :
    (reorderMove l i j).length = l.length := by
  unfold reorderMove
  cases hg : l[i]? with
  | none => rfl
  | some a =>
    have hi : i < l.length := by
      by_contra hge
      rw [List.getElem?_eq_none (Nat.le_of_not_lt hge)] at hg
      exact Option.noConfusion hg
    rw [spliceInsert_length, spliceRemove_length l i hi]
    omega

theorem reorderMove_map {α β : Type} (f : α → β) (l : List α) (i j : Nat) :
    (reorderMove l i j).map f = reorderMove (l.map f) i j := by
  unfold reorderMove
  rw [List.getElem?_map]
  cases hg : l[i]? with
  | none => rfl
  | some a => simp [spliceInsert_map, spliceRemove_map]

theorem reorderMove_getElem?_dest {α : Type} (l : List α) (i j : Nat)
    (hi : i < l.length) (hj : j < l.length) :
    (reorderMove l i j)[j]? = l[i]? := by
  unfold reorderMove
  cases hg : l[i]? with
  | none =>
    rw [List.getElem?_eq_none_iff] at hg
    omega
  | some a =>
    rw [spliceInsert_getElem?_self]
    rw [spliceRemove_length l i hi]
    omega

theorem reorderMove_erase_dest {α : Type} (l : List α) (i j : Nat)
    (hi : i < l.length) (hj : j < l.length) :
    spliceRemove (reorderMove l i j) j = spliceRemove l i := by
  unfold reorderMove
  cases hg : l[i]? with
  | none =>
    rw [List.getElem?_eq_none_iff] at hg
    omega
  | some a =>
    rw [spliceRemove_spliceInsert]
    rw [spliceRemove_length l i hi]
    omega

theorem assignPositions_length {α : Type} (b : Nat) (l : List α) :
    (assignPositions b l).length = l.length := by
  induction l generalizing b with
  | nil => simp [assignPositions]
  | cons h t ih => simp [assignPositions, ih]

theorem assignPositions_map_fst {α : Type} (b : Nat) (l : List α) :
    (assignPositions b l).map Prod.fst = l := by
  induction l generalizing b with
  | nil => simp [assignPositions]
  | cons h t ih => simp [assignPositions, ih]

theorem assignPositions_map_snd {α : Type} (b : Nat) (l : List α) :
    (assignPositions b l).map Prod.snd = List.range' b l.length := by
  induction l generalizing b with
  | nil => simp [assignPositions]
  | cons h t ih => simp [assignPositions, List.range'_succ, ih]

theorem assignPositions_getElem? {α : Type} (b : Nat) (l : List α) (k : Nat) :
    (assignPositions b l)[k]? = (l[k]?).map (fun a => (a, b + k)) := by
  induction l generalizing b k with
  | nil => simp [assignPositions]
  | cons h t ih =>
    cases k with
    | zero => simp [assignPositions]
    | succ n =>
      simp only [assignPositions, List.getElem?_cons_succ, ih (b + 1) n]
      have : b + 1 + n = b + (n + 1) := by omega
      rw [this]

/-- **C1.** Moving the item at source index `i` to destination index `j`
(remove-then-insert, as in both `handleDragEnd` handlers) and then assigning
`position[k] = b + k` yields: positions exactly `[b .. b+N-1]` (a permutation
of that range, here in canonical order), the moved item paired with position
`b + j` at index `j`, and the remaining items in their original relative
order (removing the moved item from the result gives the same list as
removing it from the input).  `b = 0` gives folder `display_order`, `b = 1`
gives page numbers. -/
theorem reorder_positions_correct {α : Type} (l : List α) (i j b : Nat)
    (hi : i < l.length) (hj : j < l.length) (_hcap : l.length ≤ 100) :
    ((assignPositions b (reorderMove l i j)).map Prod.snd = List.range' b l.length)
    ∧ ((assignPositions b (reorderMove l i j))[j]?
        = (l[i]?).map (fun a => (a, b + j)))
    ∧ (spliceRemove (reorderMove l i j) j = spliceRemove l i) := by
  refine ⟨?_, ?_, reorderMove_erase_dest l i j hi hj⟩
  · rw [assignPositions_map_snd, reorderMove_length]
  · rw [assignPositions_getElem?, reorderMove_getElem?_dest l i j hi hj]

/-- Witness for C1 at a concrete input: the list `[10, 20, 30, 40]`, moving
index `0` to index `2` with one-based positions. -/
theorem reorder_positions_correct_witness :
    ((assignPositions 1 (reorderMove [10, 20, 30, 40] 0 2)).map Prod.snd
        = List.range' 1 4)
    ∧ ((assignPositions 1 (reorderMove [10, 20, 30, 40] 0 2))[2]?
        = (([10, 20, 30, 40] : List Nat)[0]?).map (fun a => (a, 1 + 2)))
    ∧ (spliceRemove (reorderMove [10, 20, 30, 40] 0 2) 2
        = spliceRemove [10, 20, 30, 40] 0) :=
  reorder_positions_correct [10, 20, 30, 40] 0 2 1 (by decide) (by decide)
    (by decide)

/-! ## Bookmark-folder cap trigger (`extended-schema.md`, C2) -/

/-- A row of the `bookmark_folders` table, reduced to the column the trigger
reads. -/
structure FolderRowDb where
  user_id : Nat
deriving DecidableEq

/-- The `check_folder_limit` trigger function: it runs `BEFORE INSERT`, so the
`SELECT COUNT(*)` sees only the rows already in the table (not the row being
inserted), and it raises only when that count is strictly greater than the
profile's `max_bookmark_folders`.  Returns `true` when the trigger raises. -/
def check_folder_limit (maxFolders : Nat) (table : List FolderRowDb)
    (row : FolderRowDb) : Bool :=
  (table.filter (fun r => r.user_id == row.user_id)).length > maxFolders

/-- An `INSERT INTO bookmark_folders` guarded by the `enforce_folder_limit`
trigger: on a raise the statement fails and the table is unchanged; otherwise
the row is appended. -/
def insertBookmarkFolderDb (maxFolders : Nat) (table : List FolderRowDb)
    (row : FolderRowDb) : Except String (List FolderRowDb) :=
  if check_folder_limit maxFolders table row then
    Except.error "Maximum folder limit reached"
  else
    Except.ok (table ++ [row])

/-- Number of `bookmark_folders` rows owned by a user. -/
def folderCount (table : List FolderRowDb) (uid : Nat) : Nat :=
  (table.filter (fun r => r.user_id == uid)).length

/-- **C2 (counterevidence).** The trigger is off by one: for a user with
exactly 100 folders and `max_bookmark_folders = 100`, the `BEFORE INSERT`
count is 100 and the test `100 > 100` is false, so the 101st insert is
accepted and the user's folder count becomes 101, exceeding the documented
cap; only the 102nd insert is rejected.  The claim (and the trigger's own
intent, "prevent exceeding folder limit") says the 101st insert must fail
with the count staying at 100. -/
theorem check_folder_limit_off_by_one :
    (insertBookmarkFolderDb 100 (List.replicate 100 ⟨0⟩) ⟨0⟩
        = Except.ok (List.replicate 100 ⟨0⟩ ++ [⟨0⟩]))
    ∧ (folderCount (List.replicate 100 ⟨0⟩ ++ [⟨0⟩]) 0 = 101)
    ∧ (insertBookmarkFolderDb 100 (List.replicate 101 ⟨0⟩) ⟨0⟩
        = Except.error "Maximum folder limit reached") := by
  refine ⟨?_, ?_, ?_⟩ <;> rfl

/-! ## Slug uniqueness (`user_comics.slug TEXT UNIQUE NOT NULL`, C8) -/

/-- A row of the `user_comics` table, reduced to the columns the unique
constraint and the claim read. -/
structure ComicRow where
  slug : String
  title : String
deriving DecidableEq

/-- An `INSERT INTO user_comics` guarded by the `UNIQUE` constraint on
`slug`: the database rejects the statement when an existing row already
carries the same slug, and otherwise appends the row. -/
def insertUserComic (table : List ComicRow) (c : ComicRow) :
    Except String (List ComicRow) :=
  if table.any (fun r => r.slug == c.slug) then
    Except.error "duplicate key value violates unique constraint"
  else
    Except.ok (table ++ [c])

/-- No two rows of the table share a slug. -/
def slugsDistinct (table : List ComicRow) : Prop :=
  (table.map ComicRow.slug).Nodup

/-- **C8.** Inserting a comic whose slug equals an existing comic's slug is
rejected by the unique constraint, and every successful insert preserves
slug-distinctness, so no two stored comics ever share a slug. -/
theorem slug_unique_enforced (table : List ComicRow) (c : ComicRow) :
    ((∃ r ∈ table, r.slug = c.slug) →
        insertUserComic table c
          = Except.error "duplicate key value violates unique constraint")
    ∧ (∀ table2, slugsDistinct table →
        insertUserComic table c = Except.ok table2 → slugsDistinct table2) := by
  constructor
  · intro hdup
    obtain ⟨r, hr, hslug⟩ := hdup
    unfold insertUserComic
    rw [if_pos]
    rw [List.any_eq_true]
    exact ⟨r, hr, by simp [hslug]⟩
  · intro table2 hnd hok
    unfold insertUserComic at hok
    by_cases hany : table.any (fun r => r.slug == c.slug)
    · rw [if_pos hany] at hok
      exact Except.noConfusion hok
    · rw [if_neg hany] at hok
      have htab : table2 = table ++ [c] := by
        injection hok with h
        exact h.symm
      subst htab
      unfold slugsDistinct at hnd ⊢
      rw [List.map_append, List.nodup_append]
      refine ⟨hnd, List.nodup_singleton _, ?_⟩
      intro s hs hsc
      simp only [List.map_cons, List.map_nil, List.mem_singleton] at hsc
      subst hsc
      rw [List.mem_map] at hs
      obtain ⟨r, hr, hrs⟩ := hs
      rw [List.any_eq_true] at hany
      exact hany ⟨r, hr, by simp [hrs]⟩

/-- Witness for C8: inserting a second comic with the already-present slug
`"a"` is rejected. -/
theorem slug_unique_enforced_witness :
    insertUserComic [⟨"a", "t1"⟩] ⟨"a", "t2"⟩
      = Except.error "duplicate key value violates unique constraint" :=
  (slug_unique_enforced [⟨"a", "t1"⟩] ⟨"a", "t2"⟩).1
    ⟨⟨"a", "t1"⟩, by simp, rfl⟩

/-! ## Multi-step upload wizard (`ComicUploadPage`, C3, C4, C9)

Steps are numbered as in the source: `currentStep` is 1 (cover), 2 (pages),
3 (details), 4 (review).  The page-modifying controls are rendered only at
step 2, the cover controls only at step 1, and the metadata inputs only at
step 3; the `Next` button is rendered only while `currentStep < 4` and
`Previous` only while `currentStep > 1`.  FileReader previews are modelled
by an arbitrary function `pv` from files to their data-URL strings. -/

/-- A selected browser file: the fields the handlers read (`file.type` as
`mime`, `file.size` in bytes). -/
structure FileT where
  name : String
  size : Nat
  mime : String
deriving DecidableEq

/-- `pre` is an initial segment of `s` — an executable model of JS
`String.prototype.startsWith` over the character lists. -/
def strStartsWith (s pre : String) : Bool :=
  pre.data.isPrefixOf s.data

/-- The mime check of the validation code, `file.type.startsWith` applied to
the image mime class. -/
def FileT.isImage (f : FileT) : Bool :=
  strStartsWith f.mime "image/"

/-- The component state of `ComicUploadPage` restricted to the fields the
claims are about. -/
structure WizardState where
  currentStep : Nat
  coverImage : Option FileT
  comicPages : List FileT
  pagePreviewUrls : List String
  title : String
  artist : String
  error : Option String
deriving DecidableEq

/-- Initial state: `useState(1)`, no cover, no pages, empty metadata. -/
def initWizard : WizardState :=
  { currentStep := 1, coverImage := none, comicPages := [],
    pagePreviewUrls := [], title := "", artist := "", error := none }

def coverTypeMsg : String := "Please upload an image file for the cover"
def coverSizeMsg : String := "Cover image must be less than 2MB"
def pagesLimitMsg : String := "You can only upload up to 100 pages."
def pagesTypeMsg : String := "All files must be images"
def pagesSizeMsg : String := "All images must be less than 5MB"
def needCoverMsg : String := "Please upload a cover image"
def needPagesMsg : String := "Please upload at least one comic page"
def needTitleMsg : String := "Please enter a title"
def needArtistMsg : String := "Please enter an artist name"

/-- `handleCoverUpload`: validate mime and size, then set the cover and clear
the error. -/
def handleCoverUpload (f : FileT) (st : WizardState) : WizardState :=
  if ¬ f.isImage then { st with error := some coverTypeMsg }
  else if f.size > 2 * 1024 * 1024 then { st with error := some coverSizeMsg }
  else { st with coverImage := some f, error := none }

/-- `handlePagesUpload` with preview function `pv`: reject the whole
selection when it would push the page count past 100, when a non-image file
is present, or when an oversized file is present; otherwise append the files
and their previews and clear the error.  An empty selection does nothing. -/
def handlePagesUpload (pv : FileT → String) (files : List FileT)
    (st : WizardState) : WizardState :=
  if files.length > 0 then
    if st.comicPages.length + files.length > 100 then
      { st with error := some pagesLimitMsg }
    else if (files.filter (fun f => ¬ f.isImage)).length > 0 then
      { st with error := some pagesTypeMsg }
    else if (files.filter (fun f => f.size > 5 * 1024 * 1024)).length > 0 then
      { st with error := some pagesSizeMsg }
    else
      { st with comicPages := st.comicPages ++ files,
                pagePreviewUrls := st.pagePreviewUrls ++ files.map pv,
                error := none }
  else st

/-- `handleDragEnd` of the upload page: apply the same remove-and-insert
splice to the page array and to the preview array. -/
def handleDragEndPages (i j : Nat) (st : WizardState) : WizardState :=
  { st with comicPages := reorderMove st.comicPages i j,
            pagePreviewUrls := reorderMove st.pagePreviewUrls i j }

/-- `handleRemovePage`: `splice(index, 1)` on both arrays. -/
def handleRemovePage (i : Nat) (st : WizardState) : WizardState :=
  { st with comicPages := spliceRemove st.comicPages i,
            pagePreviewUrls := spliceRemove st.pagePreviewUrls i }

/-- `goToNextStep`: the guard chain of the source, in order; a failing guard
sets the error and leaves the step unchanged, otherwise the step advances
and the error clears. -/
def goToNextStep (st : WizardState) : WizardState :=
  if st.currentStep = 1 ∧ st.coverImage = none then
    { st with error := some needCoverMsg }
  else if st.currentStep = 2 ∧ st.comicPages.length = 0 then
    { st with error := some needPagesMsg }
  else if st.currentStep = 3 ∧ st.title.trim = "" then
    { st with error := some needTitleMsg }
  else if st.currentStep = 3 ∧ st.artist.trim = "" then
    { st with error := some needArtistMsg }
  else
    { st with currentStep := st.currentStep + 1, error := none }

/-- `goToPreviousStep`. -/
def goToPreviousStep (st : WizardState) : WizardState :=
  { st with currentStep := st.currentStep - 1, error := none }

/-- The user interactions the wizard UI exposes. -/
inductive WEvent where
  | coverUpload (f : FileT)
  | coverRemove
  | pagesUpload (files : List FileT)
  | pagesDragEnd (i j : Nat)
  | removePage (i : Nat)
  | setTitle (s : String)
  | setArtist (s : String)
  | next
  | prev
deriving DecidableEq

/-- One UI event applied to the state, guarded by the step at which the
corresponding control is rendered; drag and remove indices come from
rendered grid items and are therefore in range. -/
def applyEvent (pv : FileT → String) (st : WizardState) : WEvent → WizardState
  | WEvent.coverUpload f =>
      if st.currentStep = 1 then handleCoverUpload f st else st
  | WEvent.coverRemove =>
      if st.currentStep = 1 then { st with coverImage := none } else st
  | WEvent.pagesUpload files =>
      if st.currentStep = 2 then handlePagesUpload pv files st else st
  | WEvent.pagesDragEnd i j =>
      if st.currentStep = 2 ∧ i < st.comicPages.length
          ∧ j < st.comicPages.length then
        handleDragEndPages i j st
      else st
  | WEvent.removePage i =>
      if st.currentStep = 2 ∧ i < st.comicPages.length then
        handleRemovePage i st
      else st
  | WEvent.setTitle s =>
      if st.currentStep = 3 then { st with title := s } else st
  | WEvent.setArtist s =>
      if st.currentStep = 3 then { st with artist := s } else st
  | WEvent.next =>
      if st.currentStep < 4 then goToNextStep st else st
  | WEvent.prev =>
      if 1 < st.currentStep then goToPreviousStep st else st

/-- States the wizard can be in after any sequence of UI events. -/
inductive WReachable (pv : FileT → String) : WizardState → Prop where
  | init : WReachable pv initWizard
  | step {st : WizardState} (h : WReachable pv st) (e : WEvent) :
      WReachable pv (applyEvent pv st e)

/-- The inductive invariant of the wizard: the page count never exceeds 100,
the preview array is the image of the page array under the preview function,
and past the pages step at least one page is selected. -/
def WInv (pv : FileT → String) (st : WizardState) : Prop :=
  st.comicPages.length ≤ 100
  ∧ st.pagePreviewUrls = st.comicPages.map pv
  ∧ (3 ≤ st.currentStep → 1 ≤ st.comicPages.length)

theorem winv_init (pv : FileT → String) : WInv pv initWizard := by
  refine ⟨by simp [initWizard], by simp [initWizard], ?_⟩
  intro h
  simp [initWizard] at h

theorem winv_step (pv : FileT → String) (st : WizardState) (e : WEvent)
    (h : WInv pv st) : WInv pv (applyEvent pv st e) := by
  obtain ⟨hcap, hmap, hpages⟩ := h
  cases e with
  | coverUpload f =>
    simp only [applyEvent]
    split
    · unfold handleCoverUpload
      split
      · exact ⟨hcap, hmap, hpages⟩
      · split
        · exact ⟨hcap, hmap, hpages⟩
        · exact ⟨hcap, hmap, hpages⟩
    · exact ⟨hcap, hmap, hpages⟩
  | coverRemove =>
    simp only [applyEvent]
    split
    · exact ⟨hcap, hmap, hpages⟩
    · exact ⟨hcap, hmap, hpages⟩
  | pagesUpload files =>
    simp only [applyEvent]
    split
    · rename_i hstep
      unfold handlePagesUpload
      split
      · split
        · exact ⟨hcap, hmap, hpages⟩
        · split
          · exact ⟨hcap, hmap, hpages⟩
          · split
            · exact ⟨hcap, hmap, hpages⟩
            · rename_i hlen hover htype hsize
              refine ⟨by simp; omega, ?_, ?_⟩
              · simp [hmap]
              · intro h3
                rw [hstep] at h3
                omega
      · exact ⟨hcap, hmap, hpages⟩
    · exact ⟨hcap, hmap, hpages⟩
  | pagesDragEnd i j =>
    simp only [applyEvent]
    split
    · rename_i hcond
      unfold handleDragEndPages
      refine ⟨by simp [reorderMove_length]; omega, ?_, ?_⟩
      · simp only []
        rw [hmap, reorderMove_map]
      · intro h3
        rw [hcond.1] at h3
        omega
    · exact ⟨hcap, hmap, hpages⟩
  | removePage i =>
    simp only [applyEvent]
    split
    · rename_i hcond
      unfold handleRemovePage
      refine ⟨?_, ?_, ?_⟩
      · simp only []
        rw [spliceRemove_length _ _ hcond.2]
        omega
      · simp only []
        rw [hmap, spliceRemove_map]
      · intro h3
        rw [hcond.1] at h3
        omega
    · exact ⟨hcap, hmap, hpages⟩
  | setTitle s =>
    simp only [applyEvent]
    split
    · exact ⟨hcap, hmap, hpages⟩
    · exact ⟨hcap, hmap, hpages⟩
  | setArtist s =>
    simp only [applyEvent]
    split
    · exact ⟨hcap, hmap, hpages⟩
    · exact ⟨hcap, hmap, hpages⟩
  | next =>
    simp only [applyEvent]
    split
    · rename_i hlt
      unfold goToNextStep
      split
      · exact ⟨hcap, hmap, hpages⟩
      · split
        · exact ⟨hcap, hmap, hpages⟩
        · split
          · exact ⟨hcap, hmap, hpages⟩
          · split
            · exact ⟨hcap, hmap, hpages⟩
            · rename_i h1 h2 h3 h4
              refine ⟨hcap, hmap, ?_⟩
              intro hge
              simp only [] at hge
              by_cases hs2 : st.currentStep = 2
              · rcases Nat.eq_zero_or_pos st.comicPages.length with hz | hp
                · exact absurd ⟨hs2, hz⟩ h2
                · exact hp
              · exact hpages (by omega)
    · exact ⟨hcap, hmap, hpages⟩
  | prev =>
    simp only [applyEvent]
    split
    · rename_i hgt
      unfold goToPreviousStep
      refine ⟨hcap, hmap, ?_⟩
      intro h3
      simp only [] at h3
      exact hpages (by omega)
    · exact ⟨hcap, hmap, hpages⟩

theorem winv_reachable (pv : FileT → String) (st : WizardState)
    (h : WReachable pv st) : WInv pv st := by
  induction h with
  | init => exact winv_init pv
  | step _ e ih => exact winv_step pv _ e ih

/-- **C3.** On every reachable wizard state the forward transition succeeds
exactly when its guard holds — cover step: a cover file is selected; pages
step: at least one and at most 100 page files (the upper bound holds by the
reachability invariant, `goToNextStep` itself only tests emptiness); details
step: title and artist non-empty after trimming — and each failing guard
leaves the step unchanged and sets the corresponding error message. -/
theorem wizard_forward_guards (pv : FileT → String) (st : WizardState)
    (h : WReachable pv st) :
    (st.currentStep = 1 →
      (((applyEvent pv st WEvent.next).currentStep = 2) ↔ st.coverImage ≠ none))
    ∧ (st.currentStep = 2 →
      (((applyEvent pv st WEvent.next).currentStep = 3)
        ↔ (1 ≤ st.comicPages.length ∧ st.comicPages.length ≤ 100)))
    ∧ (st.currentStep = 3 →
      (((applyEvent pv st WEvent.next).currentStep = 4)
        ↔ (st.title.trim ≠ "" ∧ st.artist.trim ≠ "")))
    ∧ (st.currentStep = 1 → st.coverImage = none →
        applyEvent pv st WEvent.next = { st with error := some needCoverMsg })
    ∧ (st.currentStep = 2 → st.comicPages.length = 0 →
        applyEvent pv st WEvent.next = { st with error := some needPagesMsg })
    ∧ (st.currentStep = 3 → st.title.trim = "" →
        applyEvent pv st WEvent.next = { st with error := some needTitleMsg })
    ∧ (st.currentStep = 3 → st.title.trim ≠ "" → st.artist.trim = "" →
        applyEvent pv st WEvent.next = { st with error := some needArtistMsg }) := by
  have hinv := winv_reachable pv st h
  refine ⟨?_, ?_, ?_, ?_, ?_, ?_, ?_⟩
  · intro h1
    simp only [applyEvent]
    rw [if_pos (by omega : st.currentStep < 4)]
    unfold goToNextStep
    by_cases hc : st.coverImage = none
    · rw [if_pos ⟨h1, hc⟩]
      simp [h1, hc]
    · rw [if_neg (by rintro ⟨_, hcn⟩; exact hc hcn)]
      rw [if_neg (by rintro ⟨h2, _⟩; omega)]
      rw [if_neg (by rintro ⟨h3, _⟩; omega)]
      rw [if_neg (by rintro ⟨h3, _⟩; omega)]
      simp [h1, hc]
  · intro h2
    simp only [applyEvent]
    rw [if_pos (by omega : st.currentStep < 4)]
    unfold goToNextStep
    rw [if_neg (by rintro ⟨hh, _⟩; omega)]
    by_cases hp : st.comicPages.length = 0
    · rw [if_pos ⟨h2, hp⟩]
      simp [h2, hp]
    · rw [if_neg (by rintro ⟨_, hz⟩; exact hp hz)]
      rw [if_neg (by rintro ⟨h3, _⟩; omega)]
      rw [if_neg (by rintro ⟨h3, _⟩; omega)]
      constructor
      · intro _
        exact ⟨Nat.pos_of_ne_zero hp, hinv.1⟩
      · intro _
        show st.currentStep + 1 = 3
        omega
  · intro h3
    simp only [applyEvent]
    rw [if_pos (by omega : st.currentStep < 4)]
    unfold goToNextStep
    rw [if_neg (by rintro ⟨hh, _⟩; omega)]
    rw [if_neg (by rintro ⟨hh, _⟩; omega)]
    by_cases ht : st.title.trim = ""
    · rw [if_pos ⟨h3, ht⟩]
      simp [h3, ht]
    · rw [if_neg (by rintro ⟨_, htt⟩; exact ht htt)]
      by_cases ha : st.artist.trim = ""
      · rw [if_pos ⟨h3, ha⟩]
        simp [h3, ha]
      · rw [if_neg (by rintro ⟨_, haa⟩; exact ha haa)]
        simp [h3, ht, ha]
  · intro h1 hc
    simp only [applyEvent]
    rw [if_pos (by omega : st.currentStep < 4)]
    unfold goToNextStep
    rw [if_pos ⟨h1, hc⟩]
  · intro h2 hp
    simp only [applyEvent]
    rw [if_pos (by omega : st.currentStep < 4)]
    unfold goToNextStep
    rw [if_neg (by rintro ⟨hh, _⟩; omega)]
    rw [if_pos ⟨h2, hp⟩]
  · intro h3 ht
    simp only [applyEvent]
    rw [if_pos (by omega : st.currentStep < 4)]
    unfold goToNextStep
    rw [if_neg (by rintro ⟨hh, _⟩; omega)]
    rw [if_neg (by rintro ⟨hh, _⟩; omega)]
    rw [if_pos ⟨h3, ht⟩]
  · intro h3 ht ha
    simp only [applyEvent]
    rw [if_pos (by omega : st.currentStep < 4)]
    unfold goToNextStep
    rw [if_neg (by rintro ⟨hh, _⟩; omega)]
    rw [if_neg (by rintro ⟨hh, _⟩; omega)]
    rw [if_neg (by rintro ⟨_, htt⟩; exact ht htt)]
    rw [if_pos ⟨h3, ha⟩]

/-- A concrete preview function for the witnesses. -/
def pv0 : FileT → String := fun f => f.name

/-- Witness for C3: in the initial state (cover step, no cover selected) the
forward transition fails, leaves the step unchanged, and sets the cover
error message. -/
theorem wizard_forward_guards_witness :
    applyEvent pv0 initWizard WEvent.next
      = { initWizard with error := some needCoverMsg } :=
  (wizard_forward_guards pv0 initWizard WReachable.init).2.2.2.1 rfl rfl

/-- A sample valid cover file. -/
def sampleCover : FileT := { name := "cover.png", size := 1000, mime := "image/png" }

/-- A sample valid page file. -/
def samplePage : FileT := { name := "p.png", size := 1000, mime := "image/png" }

/-- The wizard state after uploading a cover and advancing: the pages step. -/
def wizardAtPages : WizardState :=
  applyEvent pv0 (applyEvent pv0 initWizard (WEvent.coverUpload sampleCover))
    WEvent.next

theorem wizardAtPages_reachable : WReachable pv0 wizardAtPages :=
  WReachable.step (WReachable.step WReachable.init _) _

/-- **C4.** On every reachable wizard state: the page count is at most 100;
the details and review steps are unreachable with zero pages; and at the
pages step a selection that would push the count past 100 is rejected
outright — the state is unchanged except for the limit error message, so no
file of the selection is added. -/
theorem wizard_page_cap (pv : FileT → String) (st : WizardState)
    (h : WReachable pv st) :
    st.comicPages.length ≤ 100
    ∧ (3 ≤ st.currentStep → 1 ≤ st.comicPages.length)
    ∧ (∀ files : List FileT, st.currentStep = 2 → 0 < files.length →
        100 < st.comicPages.length + files.length →
        applyEvent pv st (WEvent.pagesUpload files)
          = { st with error := some pagesLimitMsg }) := by
  have hinv := winv_reachable pv st h
  refine ⟨hinv.1, hinv.2.2, ?_⟩
  intro files hstep hpos hover
  simp only [applyEvent]
  rw [if_pos hstep]
  unfold handlePagesUpload
  rw [if_pos hpos, if_pos hover]

/-- Witness for C4: at the pages step with no pages yet, selecting 101 files
at once is rejected with the limit message and adds nothing. -/
theorem wizard_page_cap_witness :
    applyEvent pv0 wizardAtPages
        (WEvent.pagesUpload (List.replicate 101 samplePage))
      = { wizardAtPages with error := some pagesLimitMsg } :=
  (wizard_page_cap pv0 wizardAtPages wizardAtPages_reachable).2.2
    (List.replicate 101 samplePage) (by decide) (by simp) (by decide)

/-- **C9.** On every reachable wizard state the page array and the preview
array are index-aligned: they have equal length, and the preview at each
index is exactly the preview of the page file at that index (every page
operation — upload, drag reorder, removal — applies the same transformation
to both arrays). -/
theorem pages_previews_aligned (pv : FileT → String) (st : WizardState)
    (h : WReachable pv st) :
    st.pagePreviewUrls.length = st.comicPages.length
    ∧ ∀ k : Nat, st.pagePreviewUrls[k]? = (st.comicPages[k]?).map pv := by
  have hinv := winv_reachable pv st h
  constructor
  · rw [hinv.2.1]
    simp
  · intro k
    rw [hinv.2.1, List.getElem?_map]

/-- Witness for C9 at the concrete reachable pages-step state. -/
theorem pages_previews_aligned_witness :
    wizardAtPages.pagePreviewUrls.length = wizardAtPages.comicPages.length :=
  (pages_previews_aligned pv0 wizardAtPages wizardAtPages_reachable).1

/-! ## Folder reordering and its persistence loop (`BookmarksPage`, C6, C7) -/

/-- A bookmark folder as held in the component state, restricted to the
fields the handlers read. -/
structure Folder where
  id : Nat
  name : String
  is_default : Bool
  display_order : Nat
deriving DecidableEq

/-- The pure part of the folder `handleDragEnd`: splice-move the dragged
folder from index `i` to index `j`, then map `display_order := index`
(zero-based) over the result. -/
def handleDragEndFolders (folders : List Folder) (i j : Nat) : List Folder :=
  (assignPositions 0 (reorderMove folders i j)).map
    (fun p => { p.1 with display_order := p.2 })

/-- The persistence loop of `handleDragEnd`: one
`updateBookmarkFolder(folder.id, { display_order })` call per folder of the
updated list, in list order, with no change detection. -/
def folderUpdateOps (fs : List Folder) : List (Nat × Nat) :=
  fs.map (fun f => (f.id, f.display_order))

/-- The `reorder_comic_pages` stored procedure: for every index `i` of the
supplied `page_order` array it writes `page_number := i + 1` for the page at
that index, unconditionally. -/
def reorderComicPagesUpdates (pageOrder : List Nat) : List (Nat × Nat) :=
  assignPositions 1 pageOrder

/-- **C6.** Both persistence paths write every position unconditionally: the
folder loop issues exactly one `display_order` update per folder of the
reordered list — `N` updates for `N` folders, whether or not a folder's
position changed — and `reorder_comic_pages` writes `page_number = i + 1`
for every entry `i` of the supplied order, not only the changed ones. -/
theorem persist_updates_unconditional (folders : List Folder) (i j : Nat)
    (pageOrder : List Nat) :
    (folderUpdateOps (handleDragEndFolders folders i j)).length = folders.length
    ∧ (reorderComicPagesUpdates pageOrder).length = pageOrder.length
    ∧ (reorderComicPagesUpdates pageOrder).map Prod.snd
        = List.range' 1 pageOrder.length := by
  refine ⟨?_, ?_, ?_⟩
  · unfold folderUpdateOps handleDragEndFolders
    rw [List.length_map, List.length_map, assignPositions_length,
      reorderMove_length]
  · unfold reorderComicPagesUpdates
    exact assignPositions_length 1 pageOrder
  · unfold reorderComicPagesUpdates
    exact assignPositions_map_snd 1 pageOrder

/-- One `UPDATE bookmark_folders SET display_order = op.2 WHERE id = op.1`
applied to a store of `(id, display_order)` rows. -/
def applyUpdate (store : List (Nat × Nat)) (op : Nat × Nat) : List (Nat × Nat) :=
  store.map (fun e => if e.1 = op.1 then (e.1, op.2) else e)

/-- The sequential `for … await updateBookmarkFolder …` loop: apply the
updates in order; the first failing update rejects, the surrounding `catch`
aborts the loop, and nothing already written is undone.  Returns the final
store, the list of updates that were issued, and whether the loop finished. -/
def runUpdates (fails : Nat × Nat → Bool) :
    List (Nat × Nat) → List (Nat × Nat) →
      List (Nat × Nat) × List (Nat × Nat) × Bool
  | store, [] => (store, [], true)
  | store, op :: rest =>
    if fails op then (store, [op], false)
    else
      let r := runUpdates fails (applyUpdate store op) rest
      (r.1, op :: r.2.1, r.2.2)

theorem runUpdates_fail_at (fails : Nat × Nat → Bool)
    (store ops : List (Nat × Nat)) (k : Nat) (hk : k < ops.length)
    (hfail : fails (ops.getD k (0, 0)) = true)
    (hbefore : ∀ m, m < k → fails (ops.getD m (0, 0)) = false) :
    runUpdates fails store ops
      = (List.foldl applyUpdate store (ops.take k), ops.take (k + 1), false) := by
  induction ops generalizing store k with
  | nil => simp at hk
  | cons op rest ih =>
    cases k with
    | zero =>
      simp only [List.getD_cons_zero] at hfail
      unfold runUpdates
      rw [if_pos hfail]
      simp
    | succ k =>
      have hop : fails op = false := by
        have := hbefore 0 (Nat.succ_pos k)
        simpa using this
      unfold runUpdates
      rw [if_neg (by simp [hop])]
      have hk2 : k < rest.length := by
        simp only [List.length_cons] at hk
        omega
      have hfail2 : fails (rest.getD k (0, 0)) = true := by
        simpa using hfail
      have hbefore2 : ∀ m, m < k → fails (rest.getD m (0, 0)) = false := by
        intro m hm
        have := hbefore (m + 1) (by omega)
        simpa using this
      rw [ih (applyUpdate store op) k hk2 hfail2 hbefore2]
      simp

/-- **C7.** For every folder reorder, if the update at loop index `k` is the
first to fail, the run applies exactly the first `k` updates to the store,
issues only the first `k + 1` (updates `k+1 .. N-1` are never issued), and
reports failure without undoing anything — the persisted order is left
partially reordered, as no transaction wraps the loop. -/
theorem reorder_persist_partial_on_failure (folders : List Folder) (i j : Nat)
    (fails : Nat × Nat → Bool) (store : List (Nat × Nat)) (k : Nat)
    (hk : k < (folderUpdateOps (handleDragEndFolders folders i j)).length)
    (hfail : fails ((folderUpdateOps (handleDragEndFolders folders i j)).getD k (0, 0))
        = true)
    (hbefore : ∀ m, m < k →
        fails ((folderUpdateOps (handleDragEndFolders folders i j)).getD m (0, 0))
          = false) :
    runUpdates fails store (folderUpdateOps (handleDragEndFolders folders i j))
      = (List.foldl applyUpdate store
          ((folderUpdateOps (handleDragEndFolders folders i j)).take k),
         (folderUpdateOps (handleDragEndFolders folders i j)).take (k + 1),
         false) :=
  runUpdates_fail_at fails store _ k hk hfail hbefore

/-- Witness for C7: three folders reordered by moving index 0 to index 2;
the update for folder id 3 (loop index 1) fails; the store keeps the first
write, only two updates were issued, and the loop reports failure. -/
theorem reorder_persist_partial_on_failure_witness :
    runUpdates (fun op => op.1 == 3) [(1, 0), (2, 1), (3, 2)]
        (folderUpdateOps (handleDragEndFolders
          [{ id := 1, name := "a", is_default := false, display_order := 0 },
           { id := 2, name := "b", is_default := false, display_order := 1 },
           { id := 3, name := "c", is_default := false, display_order := 2 }] 0 2))
      = (List.foldl applyUpdate [(1, 0), (2, 1), (3, 2)]
          ((folderUpdateOps (handleDragEndFolders
            [{ id := 1, name := "a", is_default := false, display_order := 0 },
             { id := 2, name := "b", is_default := false, display_order := 1 },
             { id := 3, name := "c", is_default := false, display_order := 2 }] 0 2)).take 1),
         (folderUpdateOps (handleDragEndFolders
           [{ id := 1, name := "a", is_default := false, display_order := 0 },
            { id := 2, name := "b", is_default := false, display_order := 1 },
            { id := 3, name := "c", is_default := false, display_order := 2 }] 0 2)).take 2,
         false) :=
  reorder_persist_partial_on_failure
    [{ id := 1, name := "a", is_default := false, display_order := 0 },
     { id := 2, name := "b", is_default := false, display_order := 1 },
     { id := 3, name := "c", is_default := false, display_order := 2 }] 0 2
    (fun op => op.1 == 3) [(1, 0), (2, 1), (3, 2)] 1 (by decide) (by decide)
    (by decide)

/-! ## Submission effect order (`handleSubmit`, C5) -/

/-- The externally visible effects of `handleSubmit`, with page effects
carrying their one-based page number. -/
inductive SubmitEffect where
  | uploadCover
  | createComicRecord
  | uploadPage (k : Nat)
  | insertPage (k : Nat)
deriving DecidableEq

/-- The page loop of `handleSubmit` under a failure oracle: for each page,
upload it (a failed upload throws and aborts the loop), then insert its row
— the result of `addComicPage` is not checked, so a failed insert does not
abort.  `k` is the next one-based page number, the second argument the
number of pages left. -/
def pageLoop (fails : SubmitEffect → Bool) : Nat → Nat → List SubmitEffect × Bool
  | _, 0 => ([], true)
  | k, m + 1 =>
    if fails (SubmitEffect.uploadPage k) then ([SubmitEffect.uploadPage k], false)
    else
      let r := pageLoop fails (k + 1) m
      (SubmitEffect.uploadPage k :: SubmitEffect.insertPage k :: r.1, r.2)

/-- The effect trace of `handleSubmit` for `n` pages under a failure oracle:
upload the cover (abort on failure), create the comic record (abort on
failure), then run the page loop; nothing issued is ever rolled back. -/
def handleSubmitTrace (n : Nat) (fails : SubmitEffect → Bool) :
    List SubmitEffect × Bool :=
  if fails SubmitEffect.uploadCover then ([SubmitEffect.uploadCover], false)
  else if fails SubmitEffect.createComicRecord then
    ([SubmitEffect.uploadCover, SubmitEffect.createComicRecord], false)
  else
    let r := pageLoop fails 1 n
    (SubmitEffect.uploadCover :: SubmitEffect.createComicRecord :: r.1, r.2)

/-- The intended full effect order for pages `k, k+1, …` (`m` pages). -/
def pageEffects : Nat → Nat → List SubmitEffect
  | _, 0 => []
  | k, m + 1 =>
    SubmitEffect.uploadPage k :: SubmitEffect.insertPage k :: pageEffects (k + 1) m

/-- The intended full effect order of a submission with `n` pages. -/
def submitOrder (n : Nat) : List SubmitEffect :=
  SubmitEffect.uploadCover :: SubmitEffect.createComicRecord :: pageEffects 1 n

theorem pageLoop_isPrefix (fails : SubmitEffect → Bool) (m k : Nat) :
    List.IsPrefix (pageLoop fails k m).1 (pageEffects k m) := by
  induction m generalizing k with
  | zero => exact ⟨[], rfl⟩
  | succ m ih =>
    unfold pageLoop pageEffects
    split
    · exact ⟨SubmitEffect.insertPage k :: pageEffects (k + 1) m, rfl⟩
    · obtain ⟨t, ht⟩ := ih (k + 1)
      exact ⟨t, by simp [ht]⟩

theorem pageLoop_noFail (fails : SubmitEffect → Bool) (m k : Nat)
    (h : ∀ e, fails e = false) : pageLoop fails k m = (pageEffects k m, true) := by
  induction m generalizing k with
  | zero => rfl
  | succ m ih =>
    unfold pageLoop pageEffects
    rw [if_neg (by simp [h])]
    simp [ih (k + 1)]

/-- **C5.** The submission issues its effects in the fixed order: cover
upload, then comic-record creation, then for each page number `k = 1..n` the
page upload followed by its row insert with `page_number = k`.  Under any
failure pattern the issued trace is a prefix of that order — effects issued
before a failure remain and nothing is rolled back — and with no failures
the full order is issued. -/
theorem submit_effect_order (n : Nat) (fails : SubmitEffect → Bool) :
    List.IsPrefix (handleSubmitTrace n fails).1 (submitOrder n)
    ∧ ((∀ e, fails e = false) → handleSubmitTrace n fails = (submitOrder n, true)) := by
  constructor
  · unfold handleSubmitTrace submitOrder
    split
    · exact ⟨SubmitEffect.createComicRecord :: pageEffects 1 n, rfl⟩
    · split
      · exact ⟨pageEffects 1 n, rfl⟩
      · obtain ⟨t, ht⟩ := pageLoop_isPrefix fails n 1
        exact ⟨t, by simp [ht]⟩
  · intro h
    unfold handleSubmitTrace submitOrder
    rw [if_neg (by simp [h]), if_neg (by simp [h])]
    simp [pageLoop_noFail fails n 1 h]

/-- Witness for C5: a 2-page submission with no failures issues exactly the
intended order and succeeds. -/
theorem submit_effect_order_witness :
    handleSubmitTrace 2 (fun _ => false) = (submitOrder 2, true) :=
  (submit_effect_order 2 (fun _ => false)).2 (fun _ => rfl)

/-! ## Folder deletion (`handleDeleteFolder`, C10) -/

/-- The bookmark statistics the dashboard tracks. -/
structure BookmarkStats where
  total_folders : Nat
  total_bookmarks : Nat
  folders_remaining : Nat
deriving DecidableEq

/-- The `BookmarksPage` component state restricted to the fields
`handleDeleteFolder` touches. -/
structure BookmarksState where
  folders : List Folder
  activeFolder : Option Nat
  stats : BookmarkStats
  error : Option String
  success : Option String
deriving DecidableEq

/-- A store mutation issued by the bookmarks page. -/
inductive DbOp where
  | deleteFolder (id : Nat)
deriving DecidableEq

def cannotDeleteDefaultMsg : String := "Cannot delete default folders."
def folderDeletedMsg : String := "Folder deleted successfully."

/-- The successful-delete path of `handleDeleteFolder`: issue the delete,
drop the folder locally, adjust the stats, set the success message, and move
the active folder to the first remaining one when the active folder was the
one deleted. -/
def deleteFolderProceed (st : BookmarksState) (folderId : Nat) :
    BookmarksState × List DbOp :=
  let newFolders := st.folders.filter (fun f => ! (f.id == folderId))
  ({ st with
      folders := newFolders,
      stats := { st.stats with
        total_folders := st.stats.total_folders - 1,
        folders_remaining := st.stats.folders_remaining + 1 },
      success := some folderDeletedMsg,
      activeFolder :=
        if st.activeFolder = some folderId ∧ 0 < st.folders.length then
          match newFolders with
          | [] => st.activeFolder
          | f0 :: _ => some f0.id
        else st.activeFolder },
   [DbOp.deleteFolder folderId])

/-- `handleDeleteFolder`: look the folder up; a default folder is rejected
up front with only an error message and no store call; otherwise (including
an unknown id, which the lookup guard lets through) the delete proceeds. -/
def handleDeleteFolder (st : BookmarksState) (folderId : Nat) :
    BookmarksState × List DbOp :=
  match st.folders.find? (fun f => f.id == folderId) with
  | some f =>
      if f.is_default then ({ st with error := some cannotDeleteDefaultMsg }, [])
      else deleteFolderProceed st folderId
  | none => deleteFolderProceed st folderId

/-- **C10.** Deleting a folder whose `is_default` flag is set issues no
store operation and changes nothing but the error message — folders, active
folder, and statistics all stay as they were; consequently a delete
operation is only ever issued for a folder that is not a default folder. -/
theorem delete_default_folder_rejected (st : BookmarksState) (fid : Nat)
    (f : Folder) (hfind : st.folders.find? (fun x => x.id == fid) = some f)
    (hdef : f.is_default = true) :
    (handleDeleteFolder st fid
        = ({ st with error := some cannotDeleteDefaultMsg }, []))
    ∧ (∀ st2 fid2 f2, DbOp.deleteFolder fid2 ∈ (handleDeleteFolder st2 fid2).2 →
        st2.folders.find? (fun x => x.id == fid2) = some f2 →
        f2.is_default = false) := by
  constructor
  · unfold handleDeleteFolder
    rw [hfind]
    simp [hdef]
  · intro st2 fid2 f2 hmem hfind2
    unfold handleDeleteFolder at hmem
    rw [hfind2] at hmem
    by_cases hd : f2.is_default
    · simp [hd] at hmem
    · simp only [Bool.not_eq_true] at hd
      exact hd

/-- A default folder and a state holding it, for the C10 witness. -/
def defaultFolder : Folder :=
  { id := 1, name := "Favorites", is_default := true, display_order := 0 }

def sampleBookmarksState : BookmarksState :=
  { folders := [defaultFolder], activeFolder := some 1,
    stats := { total_folders := 1, total_bookmarks := 0, folders_remaining := 99 },
    error := none, success := none }

/-- Witness for C10: deleting the default folder of the sample state only
sets the error message and issues no store operation. -/
theorem delete_default_folder_rejected_witness :
    handleDeleteFolder sampleBookmarksState 1
      = ({ sampleBookmarksState with error := some cannotDeleteDefaultMsg }, []) :=
  (delete_default_folder_rejected sampleBookmarksState 1 defaultFolder
    (by decide) rfl).1

end Manus
